import Mathlib

/-!
# cobalt-discord-app

A shallow embedding of the Go sources `cobalt/types.go`, `cobalt/client.go` and
`commands/video.go`, followed by theorems about the embedded functions.

Conventions of the embedding

* A Go `string` is a Lean `String`, so the strings considered are valid UTF-8.  The string
  functions of the Go standard library that the sources call (`strings.Index`,
  `strings.IndexRune`, `strings.Trim`, `strings.ToUpper`, `filepath.Base`) are written out on
  the character list of the string, and `fmt.Sprintf` is the concatenation of the pieces of its
  format with the rendered arguments.  All patterns the sources search for are ASCII, so offsets
  counted in characters select the same substrings as the byte offsets Go computes.
* A Go `error` is represented by the text its `Error()` method returns; `nil` is `none`.
* A Go `int` is an `Int`.
* Calls into the chat platform and the network are recorded on a trace, and their outcomes are
  supplied by an explicit environment.
-/

namespace Cobalt

/-! ## `cobalt/types.go` -/

/-- RequestOptions represents options for cobalt API requests.  The defaults are Go's zero
values, which a struct literal leaves in every field it does not list. -/
structure RequestOptions where
  URL : String := ""
  VideoQuality : String := ""
  AudioFormat : String := ""
  AudioBitrate : String := ""
  FilenameStyle : String := ""
  DownloadMode : String := ""
  YoutubeVideoCodec : String := ""
  YoutubeDubLang : String := ""
  AlwaysProxy : Bool := false
  DisableMetadata : Bool := false
  TiktokFullAudio : Bool := false
  TiktokH265 : Bool := false
  TwitterGif : Bool := false
  YoutubeHLS : Bool := false
deriving DecidableEq, Repr

/-- PickerItem represents a single media item in a picker response.  The field `Type` of the
source is `Type_` here, `Type` being a keyword. -/
structure PickerItem where
  Type_ : String := ""
  URL : String := ""
  Thumb : String := ""
deriving DecidableEq, Repr

/-- ErrorContext provides additional context for error responses. -/
structure ErrorContext where
  Service : String := ""
  Limit : Int := 0
deriving DecidableEq, Repr

/-- ErrorResponse represents an error from the cobalt API.  `Context` is a pointer in the
source: `none` is the nil pointer. -/
structure ErrorResponse where
  Code : String := ""
  Context : Option ErrorContext := none
deriving DecidableEq, Repr

/-- CobaltResponse represents a response from the cobalt API. -/
structure CobaltResponse where
  Status : String := ""
  URL : String := ""
  Filename : String := ""
  Audio : String := ""
  AudioFilename : String := ""
  Picker : List PickerItem := []
  Error : ErrorResponse := {}
deriving DecidableEq, Repr

/-! ## The request payload of `Client.ProcessVideo` -/

/-- The values `ProcessVideo` stores in its `map[string]interface{}`: strings and booleans. -/
inductive PayloadValue where
  | str (s : String)
  | bool (b : Bool)
deriving DecidableEq, Repr

/-- A Go map with string keys, as the list of its entries; every key occurs at most once in a
map built with `GoMap.set` from the empty map or from a literal with distinct keys. -/
abbrev GoMap (α : Type) := List (String × α)

/-- The assignment `m[k] = v`: overwrite the entry of `k` when there is one, add it otherwise. -/
def GoMap.set {α : Type} : GoMap α → String → α → GoMap α
  | [], k, v => [(k, v)]
  | (k', v') :: rest, k, v =>
    if k' = k then (k, v) :: rest else (k', v') :: GoMap.set rest k v

/-- The lookup `v, ok := m[k]`. -/
def GoMap.get? {α : Type} : GoMap α → String → Option α
  | [], _ => none
  | (k', v') :: rest, k => if k' = k then some v' else GoMap.get? rest k

/-- The keys of the map. -/
def GoMap.keys {α : Type} (m : GoMap α) : List String := m.map Prod.fst

/-- The payload that `ProcessVideo` builds before `json.Marshal` (client.go, lines 35-85). -/
def buildPayload (options : RequestOptions) : GoMap PayloadValue :=
  let payload : GoMap PayloadValue :=
    [("url", .str options.URL),
     ("videoQuality", .str options.VideoQuality),
     ("downloadMode", .str options.DownloadMode)]
  let payload :=
    if options.AudioFormat ≠ "" then payload.set "audioFormat" (.str options.AudioFormat)
    else payload
  let payload :=
    if options.AudioBitrate ≠ "" then payload.set "audioBitrate" (.str options.AudioBitrate)
    else payload
  let payload :=
    if options.FilenameStyle ≠ "" then payload.set "filenameStyle" (.str options.FilenameStyle)
    else payload
  let payload :=
    if options.YoutubeVideoCodec ≠ "" then
      payload.set "youtubeVideoCodec" (.str options.YoutubeVideoCodec)
    else payload
  let payload :=
    if options.YoutubeDubLang ≠ "" then
      payload.set "youtubeDubLang" (.str options.YoutubeDubLang)
    else payload
  let payload := if options.AlwaysProxy then payload.set "alwaysProxy" (.bool true) else payload
  let payload :=
    if options.DisableMetadata then payload.set "disableMetadata" (.bool true) else payload
  let payload :=
    if options.TiktokFullAudio then payload.set "tiktokFullAudio" (.bool true) else payload
  let payload := if options.TiktokH265 then payload.set "tiktokH265" (.bool true) else payload
  let payload := if options.TwitterGif then payload.set "twitterGif" (.bool true) else payload
  let payload := if options.YoutubeHLS then payload.set "youtubeHLS" (.bool true) else payload
  payload

/-! ## The Go standard library functions the sources call -/

/-- The verb `%d` of `fmt.Sprintf` at an `int`: the decimal numeral, with a leading `-` for a
negative number. -/
def fmtD : Int → String
  | Int.ofNat n => Nat.repr n
  | Int.negSucc n => "-" ++ Nat.repr (n + 1)

/-- The search loop of `strings.Index`: `i` is the offset of `s` in the string searched. -/
def strings.indexFrom (substr : List Char) : List Char → Nat → Int
  | [], i => if substr.isPrefixOf [] then (i : Int) else -1
  | c :: s, i =>
    if substr.isPrefixOf (c :: s) then (i : Int) else strings.indexFrom substr s (i + 1)

/-- Go's `strings.Index(s, substr)`: the index of the first instance of `substr` in `s`, or `-1`
if `substr` is not present in `s`. -/
def strings.Index (s substr : String) : Int :=
  strings.indexFrom substr.data s.data 0

/-- Go's `strings.IndexRune(s, r)`: the index of the first instance of `r` in `s`, or `-1`. -/
def strings.IndexRune (s : String) (r : Char) : Int :=
  strings.indexFrom [r] s.data 0

/-- Go's `strings.Trim(s, cutset)`: `s` with all leading and trailing characters contained in
`cutset` removed. -/
def strings.Trim (s cutset : String) : String :=
  String.mk
    ((s.data.dropWhile (fun c => cutset.data.contains c)).reverse.dropWhile
      (fun c => cutset.data.contains c)).reverse

/-- The upper-casing of an ASCII character in `strings.ToUpper`: `c -= 'a' - 'A'` for a lower-case
letter. -/
def asciiToUpper (c : Char) : Char :=
  if 'a' ≤ c ∧ c ≤ 'z' then Char.ofNat (c.toNat - 32) else c

/-- Go's `strings.ToUpper(s)`.  A string of ASCII characters only is upper-cased letter by
letter; any other string is mapped through `unicode.ToUpper`, whose table is the parameter
`unicodeToUpper`. -/
def strings.ToUpper (unicodeToUpper : Char → Char) (s : String) : String :=
  if s.data.all (fun c => c.toNat < 128) then String.mk (s.data.map asciiToUpper)
  else String.mk (s.data.map unicodeToUpper)

/-- Go's `filepath.Base(path)` where the path separator is `/`: the last element of the path,
trailing slashes removed first; `.` for the empty path and `/` for a path of slashes only. -/
def filepath.Base (path : String) : String :=
  if path = "" then "."
  else
    let stripped := (path.data.reverse.dropWhile (fun c => c = '/')).reverse
    let last := (stripped.reverse.takeWhile (fun c => c ≠ '/')).reverse
    if last = [] then "/" else String.mk last

/-- The slice expression `s[lo:hi]` on a string; `none` is the run-time panic of an index out of
range. -/
def sliceStr (s : String) (lo hi : Int) : Option String :=
  if 0 ≤ lo ∧ lo ≤ hi ∧ hi ≤ (s.data.length : Int) then
    some (String.mk ((s.data.drop lo.toNat).take (hi.toNat - lo.toNat)))
  else none

/-- Go's `len(s)` of a string. -/
def lenStr (s : String) : Int := (s.data.length : Int)

/-! ## `cobalt/client.go` -/

/-- The bytes of a downloaded file (`[]byte`). -/
abbrev Bytes := List UInt8

/-- What the client reads of an `http.Response`: the status code, `resp.Header.Get` and the
outcome of `io.ReadAll(resp.Body)` (`β` is `String` for the JSON answer of the API, which the
source converts with `string(body)`, and `Bytes` for a media download). -/
structure HttpResponse (β : Type) where
  StatusCode : Int
  HeaderGet : String → String
  Body : Except String β

/-- The request `ProcessVideo` sends: URL, headers in the order they are set, and body. -/
structure PostRequest where
  URL : String
  Header : GoMap String
  Body : String
deriving DecidableEq, Repr

/-- Client is a cobalt API client.  The field `http` of the source, and the library calls made
around it, are the functions of the environment the client talks to: `jsonMarshal` is
`json.Marshal` on the payload, `newRequestError` the error (if any) of `http.NewRequest` for a
method and a URL, `doPost` and `doGet` the outcome of `c.http.Do`, and `jsonUnmarshal` is
`json.Unmarshal` into a `CobaltResponse`. -/
structure Client where
  baseURL : String
  apiKey : String
  jsonMarshal : GoMap PayloadValue → Except String String
  newRequestError : String → String → Option String
  doPost : PostRequest → Except String (HttpResponse String)
  doGet : String → Except String (HttpResponse Bytes)
  jsonUnmarshal : String → Except String CobaltResponse

/-- The request `ProcessVideo` creates for a serialised payload (client.go, lines 94-106): a POST
to the base URL with the content-type and accept headers, and the authorization header if an API
key is provided. -/
def Client.postRequest (c : Client) (payloadBytes : String) : PostRequest :=
  let header : GoMap String := []
  let header := header.set "Content-Type" "application/json"
  let header := header.set "Accept" "application/json"
  let header :=
    if c.apiKey ≠ "" then header.set "Authorization" ("Api-Key " ++ c.apiKey) else header
  { URL := c.baseURL, Header := header, Body := payloadBytes }

/-- ProcessVideo submits a video URL to the cobalt API for processing (client.go, lines 33-134).
`Except.error msg` is the return `nil, err` with `err.Error() = msg`. -/
def Client.ProcessVideo (c : Client) (options : RequestOptions) : Except String CobaltResponse :=
  let payload := buildPayload options
  match c.jsonMarshal payload with
  | .error err => .error ("error marshaling request payload: " ++ err)
  | .ok payloadBytes =>
    match c.newRequestError "POST" c.baseURL with
    | some err => .error ("error creating request: " ++ err)
    | none =>
      match c.doPost (c.postRequest payloadBytes) with
      | .error err => .error ("error executing request: " ++ err)
      | .ok resp =>
        match resp.Body with
        | .error err => .error ("error reading response body: " ++ err)
        | .ok body =>
          if resp.StatusCode < 200 ∨ resp.StatusCode ≥ 300 then
            .error ("received non-success status code: " ++ fmtD resp.StatusCode ++ ", body: "
              ++ body)
          else
            match c.jsonUnmarshal body with
            | .error err => .error ("error unmarshaling response: " ++ err)
            | .ok response => .ok response

/-- The filename resolution of `DownloadFile` (client.go, lines 162-183), from the value of the
`Content-Disposition` header, the URL and the `filename` argument.  `none` is a run-time panic
of the slice expression. -/
def resolveFilename (contentDisposition url filename : String) : Option String := do
  let filename ←
    if contentDisposition ≠ "" ∧ filename = "" then
      let start := strings.Index contentDisposition "filename="
      if start ≠ -1 then do
        let start := start + 9
        let rest ← sliceStr contentDisposition start (lenStr contentDisposition)
        let end_ := strings.IndexRune rest ';'
        let end_ := if end_ = -1 then lenStr contentDisposition else end_ + start
        let filename ← sliceStr contentDisposition start end_
        pure (strings.Trim filename "\"'")
      else pure filename
    else pure filename
  let filename := if filename = "" then filepath.Base url else filename
  pure filename

/-- DownloadFile downloads a file from the given URL and returns it as a byte array (client.go,
lines 137-186).  `none` is a run-time panic, `some (Except.error msg)` the return of an error. -/
def Client.DownloadFile (c : Client) (url filename : String) :
    Option (Except String (Bytes × String)) :=
  match c.newRequestError "GET" url with
  | some err => some (.error ("error creating download request: " ++ err))
  | none =>
    match c.doGet url with
    | .error err => some (.error ("error executing download request: " ++ err))
    | .ok resp =>
      if resp.StatusCode < 200 ∨ resp.StatusCode ≥ 300 then
        some (.error
          ("received non-success status code while downloading: " ++ fmtD resp.StatusCode))
      else
        match resp.Body with
        | .error err => some (.error ("error reading download response body: " ++ err))
        | .ok body =>
          match resolveFilename (resp.HeaderGet "Content-Disposition") url filename with
          | none => none
          | some filename => some (.ok (body, filename))

/-! ## The chat platform, as `commands/video.go` uses it -/

/-- The type tag of a command option (`discordgo.ApplicationCommandOptionType`). -/
inductive OptionType where
  | SubCommand | SubCommandGroup | String | Integer | Boolean | User | Channel | Role
  | Mentionable | Number | Attachment
deriving DecidableEq, Repr

/-- The dynamic value (`interface\x7b\x7d`) of a command option, as decoded from JSON: a string,
a boolean or a number (a `float64`, kept as its bit pattern). -/
inductive OptionValue where
  | str (s : String)
  | bool (b : Bool)
  | float64 (bits : Nat)
deriving DecidableEq, Repr

/-- The fields of `discordgo.ApplicationCommandInteractionDataOption` the command reads.
`Value = none` is the nil interface.  Option lists hold non-nil pointers. -/
structure ApplicationCommandInteractionDataOption where
  Name : String
  Type_ : OptionType
  Value : Option OptionValue
deriving DecidableEq, Repr

/-- The method `StringValue()`: it panics (`none`) unless the option has type `String`, and its
type assertion `o.Value.(string)` panics unless the value is a string. -/
def ApplicationCommandInteractionDataOption.StringValue
    (o : ApplicationCommandInteractionDataOption) : Option String :=
  if o.Type_ ≠ OptionType.String then none
  else
    match o.Value with
    | some (.str s) => some s
    | _ => none

/-- A file attached to a message (`discordgo.File`). -/
structure File where
  Name : String
  Data : Bytes
deriving DecidableEq, Repr

/-- The chat platform behind `discordgo.Session`, for the pending interaction: the error (if any)
with which it answers an edit of the pending response and the creation of a follow-up message,
each with the given content and files. -/
structure Session where
  InteractionResponseEdit : String → List File → Option String
  FollowupMessageCreate : String → List File → Option String

/-- What a run of the command does that can be observed from outside. -/
inductive Event where
  /-- A call of `client.ProcessVideo`. -/
  | submit (options : RequestOptions)
  /-- A call of `client.DownloadFile`. -/
  | fetch (url filename : String)
  /-- A line written with `log.Printf`. -/
  | log (line : String)
  /-- A call of `InteractionResponseEdit` and the error the platform answered. -/
  | responseEdit (content : String) (files : List File) (err : Option String)
  /-- A call of `FollowupMessageCreate` and the error the platform answered. -/
  | followup (content : String) (files : List File) (err : Option String)
deriving DecidableEq, Repr

/-- The user-visible output of an event: the content and files of an edit or follow-up that the
platform accepted; nothing for any other event. -/
def Event.visible : Event → Option (String × List File)
  | .responseEdit content files none => some (content, files)
  | .followup content files none => some (content, files)
  | _ => none

/-- The user-visible outputs of a run, in order. -/
def visibleOutputs (trace : List Event) : List (String × List File) :=
  trace.filterMap Event.visible

/-- The lines a run wrote to the server-side log, in order. -/
def logLines (trace : List Event) : List String :=
  trace.filterMap (fun e => match e with | .log line => some line | _ => none)

/-- The calls of `client.DownloadFile` in a run, in order. -/
def fetches (trace : List Event) : List (String × String) :=
  trace.filterMap (fun e => match e with | .fetch url filename => some (url, filename) | _ => none)

/-! ## `commands/video.go` -/

/-- The loop of `buildRequestOptions` over the options (video.go, lines 55-66). -/
def buildRequestOptions.loop :
    List ApplicationCommandInteractionDataOption → RequestOptions → Option RequestOptions
  | [], requestOptions => some requestOptions
  | opt :: rest, requestOptions =>
    if opt.Name = "quality" then
      if opt.Value ≠ none then do
        let v ← opt.StringValue
        buildRequestOptions.loop rest { requestOptions with VideoQuality := v }
      else buildRequestOptions.loop rest requestOptions
    else if opt.Name = "mode" then
      if opt.Value ≠ none then do
        let v ← opt.StringValue
        buildRequestOptions.loop rest { requestOptions with DownloadMode := v }
      else buildRequestOptions.loop rest requestOptions
    else buildRequestOptions.loop rest requestOptions

/-- buildRequestOptions constructs cobalt.RequestOptions from command options (video.go, lines
43-69).  `none` is a run-time panic: `options[0]` on an empty list, or `StringValue()`. -/
def buildRequestOptions (options : List ApplicationCommandInteractionDataOption) :
    Option RequestOptions :=
  match options with
  | [] => none
  | first :: _ => do
    let url ← first.StringValue
    let requestOptions : RequestOptions :=
      { URL := url, VideoQuality := "1080", DownloadMode := "auto" }
    buildRequestOptions.loop options requestOptions

/-- editResponse edits the interaction response with a string message (video.go, lines
178-186). -/
def editResponse (s : Session) (content : String) : List Event :=
  match s.InteractionResponseEdit content [] with
  | none => [.responseEdit content [] none]
  | some err =>
    [.responseEdit content [] (some err), .log ("Error editing interaction response: " ++ err)]

/-- editResponseWithError edits the interaction response with an error message (video.go, lines
189-199). -/
def editResponseWithError (s : Session) (message err : String) : List Event :=
  let content := message ++ ": " ++ err
  match s.InteractionResponseEdit content [] with
  | none => [.log (message ++ ": " ++ err), .responseEdit content [] none]
  | some respErr =>
    [.log (message ++ ": " ++ err), .responseEdit content [] (some respErr),
      .log ("Error editing interaction response: " ++ respErr)]

/-- sendVideoFile sends a video file as a response (video.go, lines 147-175): the events of the
call and the error it returns. -/
def sendVideoFile (s : Session) (videoData : Bytes) (filename : String) :
    List Event × Option String :=
  let files : List File := [{ Name := filename, Data := videoData }]
  match s.InteractionResponseEdit "Here's your video:" files with
  | none => ([.responseEdit "Here's your video:" files none], none)
  | some err =>
    let err2 := s.FollowupMessageCreate "Here's your video:" files
    ([.responseEdit "Here's your video:" files (some err),
      .log ("Error editing interaction with file: " ++ err),
      .followup "Here's your video:" files err2], err2)

/-- handleDownloadableMedia handles redirect and tunnel responses (video.go, lines 96-110).
`none` is a run-time panic inside `DownloadFile`. -/
def handleDownloadableMedia (s : Session) (client : Client) (result : CobaltResponse) :
    Option (List Event) :=
  match client.DownloadFile result.URL result.Filename with
  | none => none
  | some (.error err) =>
    some (.fetch result.URL result.Filename :: editResponseWithError s "Error downloading video" err)
  | some (.ok (videoData, filename)) =>
    match sendVideoFile s videoData filename with
    | (events, some _) =>
      some (.fetch result.URL result.Filename :: events ++
        editResponse s
          ("The video is too large to send directly. You can download it here: " ++ result.URL))
    | (events, none) => some (.fetch result.URL result.Filename :: events)

/-- The loop of `handleMediaPicker` over the picker items (video.go, lines 122-124); `i` is the
loop index. -/
def handleMediaPicker.loop (unicodeToUpper : Char → Char) :
    List PickerItem → Nat → String → String
  | [], _, content => content
  | item :: rest, i, content =>
    handleMediaPicker.loop unicodeToUpper rest (i + 1)
      (content ++ (fmtD ((i : Int) + 1) ++ ". " ++ strings.ToUpper unicodeToUpper item.Type_
        ++ ": [Download](" ++ item.URL ++ ")\n"))

/-- The message `handleMediaPicker` renders (video.go, lines 114-124). -/
def handleMediaPicker.content (unicodeToUpper : Char → Char) (result : CobaltResponse) : String :=
  let content := "Multiple media items found. Use the links below to download:\n\n"
  let content :=
    if result.Audio ≠ "" then
      content ++ ("**Common Audio**: [" ++ result.AudioFilename ++ "](" ++ result.Audio ++ ")\n\n")
    else content
  handleMediaPicker.loop unicodeToUpper result.Picker 0 content

/-- handleMediaPicker handles picker responses with multiple media items (video.go, lines
113-127). -/
def handleMediaPicker (unicodeToUpper : Char → Char) (s : Session) (result : CobaltResponse) :
    List Event :=
  editResponse s (handleMediaPicker.content unicodeToUpper result)

/-- The message `handleErrorResponse` renders (video.go, lines 131-141). -/
def handleErrorResponse.errorMsg (result : CobaltResponse) : String :=
  let errorMsg := "Error: " ++ result.Error.Code
  let errorMsg :=
    match result.Error.Context with
    | some context =>
      if context.Service ≠ "" then errorMsg ++ (" (Service: " ++ context.Service ++ ")")
      else errorMsg
    | none => errorMsg
  let errorMsg :=
    match result.Error.Context with
    | some context =>
      if context.Limit > 0 then errorMsg ++ (" (Limit: " ++ fmtD context.Limit ++ ")")
      else errorMsg
    | none => errorMsg
  errorMsg

/-- handleErrorResponse handles error responses from cobalt API (video.go, lines 130-144). -/
def handleErrorResponse (s : Session) (result : CobaltResponse) : List Event :=
  editResponse s (handleErrorResponse.errorMsg result)

/-- processAndSendVideo processes a video request and sends the response (video.go, lines
72-93).  `none` is a run-time panic. -/
def processAndSendVideo (unicodeToUpper : Char → Char) (s : Session) (client : Client)
    (options : RequestOptions) : Option (List Event) :=
  match client.ProcessVideo options with
  | .error err => some (.submit options :: editResponseWithError s "Error processing video" err)
  | .ok result =>
    if result.Status = "redirect" ∨ result.Status = "tunnel" then
      (handleDownloadableMedia s client result).map (fun events => .submit options :: events)
    else if result.Status = "picker" then
      some (.submit options :: handleMediaPicker unicodeToUpper s result)
    else if result.Status = "error" then
      some (.submit options :: handleErrorResponse s result)
    else
      some (.submit options ::
        editResponse s ("Received unexpected response status: " ++ result.Status))

/-! ## Notions of the specification -/

/-- The concatenation of a list of strings, in order. -/
def concatStrings : List String → String
  | [] => ""
  | s :: rest => s ++ concatStrings rest

/-- The text after the first instance of `pat` in `s`, if `pat` occurs in `s`. -/
def textAfterFirst (pat : List Char) : List Char → Option (List Char)
  | [] => if pat = [] then some [] else none
  | c :: s =>
    if pat.isPrefixOf (c :: s) then some ((c :: s).drop pat.length) else textAfterFirst pat s

/-- The filename a `Content-Disposition` header value yields, in the words of the
specification: the text after `filename=` up to the next `;`, with surrounding quote characters
trimmed; `none` when the header has no `filename=`. -/
def headerFilename (header : String) : Option String :=
  (textAfterFirst "filename=".data header.data).map
    (fun rest => strings.Trim (String.mk (rest.takeWhile (fun c => c ≠ ';'))) "\"'")

/-- The path of a URL, in the sense of the URL syntax: the fragment (from the first `#`) and the
query (from the first `?`) are not part of it, nor are the scheme and the authority when the URL
has the form `scheme://authority/path`. -/
def urlPath (url : String) : List Char :=
  let noFragment := url.data.takeWhile (fun c => c ≠ '#')
  let noQuery := noFragment.takeWhile (fun c => c ≠ '?')
  match textAfterFirst "://".data noQuery with
  | some afterScheme => afterScheme.dropWhile (fun c => c ≠ '/')
  | none => noQuery

/-- The final path segment of a URL, in the words of the specification: the text after the last
`/` of the path of the URL. -/
def urlFinalPathSegment (url : String) : String :=
  String.mk ((urlPath url).reverse.takeWhile (fun c => c ≠ '/')).reverse

/-- The value supplied for the command option called `name`: the string of the last option of
that name that has a value, if there is one. -/
def suppliedValue (name : String) (options : List ApplicationCommandInteractionDataOption) :
    Option String :=
  (options.filter (fun o => o.Name = name ∧ o.Value ≠ none)).getLast?.bind
    (fun o => o.StringValue)

/-! ## Concrete environments -/

/-- A platform that accepts every edit and every follow-up. -/
def acceptingSession : Session :=
  { InteractionResponseEdit := fun _ _ => none
    FollowupMessageCreate := fun _ _ => none }

/-- A platform that accepts plain-text edits and rejects every message carrying a file. -/
def fileRejectingSession : Session :=
  { InteractionResponseEdit := fun _ files =>
      if files = [] then none else some "HTTP 413 Request Entity Too Large"
    FollowupMessageCreate := fun _ files =>
      if files = [] then none else some "HTTP 413 Request Entity Too Large" }

/-- A client whose API endpoint answers every request with the given status code and body, whose
JSON decoder reads every body as `response`, and whose media host answers every download with
the given status code, `Content-Disposition` header and three bytes of data. -/
def fixedClient (apiStatus : Int) (apiBody : String) (response : CobaltResponse)
    (mediaStatus : Int) (contentDisposition : String) : Client :=
  { baseURL := "https://api.cobalt.tools"
    apiKey := ""
    jsonMarshal := fun _ => .ok "\x7b\x7d"
    newRequestError := fun _ _ => none
    doPost := fun _ =>
      .ok { StatusCode := apiStatus, HeaderGet := fun _ => "", Body := .ok apiBody }
    doGet := fun _ =>
      .ok { StatusCode := mediaStatus
            HeaderGet := fun k => if k = "Content-Disposition" then contentDisposition else ""
            Body := .ok [1, 2, 3] }
    jsonUnmarshal := fun _ => .ok response }

/-- A client whose transport fails on every request with the given error text. -/
def unreachableClient (transportError : String) : Client :=
  { baseURL := "https://api.cobalt.tools"
    apiKey := ""
    jsonMarshal := fun _ => .ok "\x7b\x7d"
    newRequestError := fun _ _ => none
    doPost := fun _ => .error transportError
    doGet := fun _ => .error transportError
    jsonUnmarshal := fun _ => .error "unexpected end of JSON input" }

/-! ## Lemmas on Go maps -/

theorem GoMap.get?_set {α : Type} (m : GoMap α) (k k' : String) (v : α) :
    (m.set k v).get? k' = if k = k' then some v else m.get? k' := by
  induction m with
  | nil => simp [GoMap.set, GoMap.get?]
  | cons e rest ih =>
    obtain ⟨a, b⟩ := e
    by_cases h1 : a = k
    · subst h1
      by_cases h2 : a = k' <;> simp [GoMap.set, GoMap.get?, h2]
    · by_cases h2 : a = k'
      · subst h2
        have h3 : ¬ k = a := fun h => h1 h.symm
        simp [GoMap.set, GoMap.get?, h1, h3]
      · simp [GoMap.set, GoMap.get?, h1, h2, ih]

theorem GoMap.get?_ite_set {α : Type} (c : Prop) [Decidable c] (m : GoMap α) (k k' : String)
    (v : α) :
    (if c then m.set k v else m).get? k' = if c ∧ k = k' then some v else m.get? k' := by
  by_cases hc : c <;> simp [hc, GoMap.get?_set]

theorem GoMap.mem_keys_iff {α : Type} (m : GoMap α) (k : String) :
    k ∈ m.keys ↔ (m.get? k).isSome = true := by
  induction m with
  | nil => simp [GoMap.keys, GoMap.get?]
  | cons e rest ih =>
    obtain ⟨a, b⟩ := e
    by_cases h : a = k
    · simp [GoMap.keys, GoMap.get?, h]
    · have h2 : ¬ k = a := fun h3 => h h3.symm
      simp only [GoMap.keys, List.map_cons, List.mem_cons, h2, false_or, GoMap.get?, h,
        if_false] at ih ⊢
      exact ih

/-! ## Lemmas on the filename resolution -/

theorem textAfterFirst_some (pat s rest : List Char) (h : textAfterFirst pat s = some rest) :
    ∃ pre, s = pre ++ pat ++ rest := by
  induction s with
  | nil =>
    by_cases hp : pat = []
    · subst hp
      simp [textAfterFirst] at h
      exact ⟨[], by simp [h]⟩
    · simp [textAfterFirst, hp] at h
  | cons c s ih =>
    by_cases hp : pat.isPrefixOf (c :: s) = true
    · simp only [textAfterFirst, hp, if_true, Option.some.injEq] at h
      obtain ⟨t, ht⟩ := List.isPrefixOf_iff_prefix.mp hp
      refine ⟨[], ?_⟩
      rw [← h, ← ht]
      simp
    · simp only [textAfterFirst, hp] at h
      obtain ⟨pre, hpre⟩ := ih h
      exact ⟨c :: pre, by simp [hpre]⟩

theorem textAfterFirst_none (pat s : List Char) (h : textAfterFirst pat s = none) :
    ¬ pat <:+: s := by
  induction s with
  | nil =>
    by_cases hp : pat = []
    · simp [textAfterFirst, hp] at h
    · simpa using hp
  | cons c s ih =>
    by_cases hp : pat.isPrefixOf (c :: s) = true
    · simp [textAfterFirst, hp] at h
    · simp only [textAfterFirst, hp] at h
      intro hin
      rcases List.infix_cons_iff.mp hin with h1 | h1
      · exact hp (List.isPrefixOf_iff_prefix.mpr h1)
      · exact ih h h1

theorem strings.indexFrom_spec (pat s : List Char) (i : Nat) :
    (strings.indexFrom pat s i = -1 ∧ textAfterFirst pat s = none) ∨
    (∃ n : Nat, strings.indexFrom pat s i = ((i + n : Nat) : Int) ∧ n + pat.length ≤ s.length ∧
      textAfterFirst pat s = some (s.drop (n + pat.length))) := by
  induction s generalizing i with
  | nil =>
    by_cases h : pat = []
    · right
      refine ⟨0, ?_⟩
      simp [strings.indexFrom, textAfterFirst, h]
    · left
      cases pat with
      | nil => exact absurd rfl h
      | cons a p => simp [strings.indexFrom, textAfterFirst, List.isPrefixOf]
  | cons c s ih =>
    by_cases h : pat.isPrefixOf (c :: s) = true
    · right
      refine ⟨0, ?_, ?_, ?_⟩
      · simp [strings.indexFrom, h]
      · have := (List.isPrefixOf_iff_prefix.mp h).length_le
        simpa using this
      · simp [textAfterFirst, h]
    · rcases ih (i + 1) with ⟨h1, h2⟩ | ⟨n, h1, h2, h3⟩
      · left
        simp [strings.indexFrom, textAfterFirst, h, h1, h2]
      · right
        refine ⟨n + 1, ?_, ?_, ?_⟩
        · simp only [strings.indexFrom, h, h1]
          simp
          omega
        · simp; omega
        · have e : n + 1 + pat.length = (n + pat.length) + 1 := by omega
          rw [textAfterFirst, if_neg h, h3, e, List.drop_succ_cons]

theorem strings.indexFrom_rune (r : Char) (s : List Char) (i : Nat) :
    (strings.indexFrom [r] s i = -1 ∧ s.takeWhile (fun c => c ≠ r) = s) ∨
    (∃ n : Nat, strings.indexFrom [r] s i = ((i + n : Nat) : Int) ∧ n ≤ s.length ∧
      s.takeWhile (fun c => c ≠ r) = s.take n) := by
  induction s generalizing i with
  | nil => left; simp [strings.indexFrom, List.isPrefixOf]
  | cons c s ih =>
    by_cases h : c = r
    · right
      refine ⟨0, ?_⟩
      subst h
      simp [strings.indexFrom, List.isPrefixOf]
    · have h' : ¬ r = c := fun e => h e.symm
      rcases ih (i + 1) with ⟨h1, h2⟩ | ⟨n, h1, h2, h3⟩
      · left
        refine ⟨?_, ?_⟩
        · simp [strings.indexFrom, List.isPrefixOf, h', h1]
        · rw [List.takeWhile_cons, h2]
          simp [h]
      · right
        refine ⟨n + 1, ?_, ?_, ?_⟩
        · simp only [strings.indexFrom, List.isPrefixOf, h1]
          simp [h']
          omega
        · simp; omega
        · rw [List.takeWhile_cons, h3]
          simp [h]

theorem sliceStr_eq (s : String) (a b : Nat) (h1 : a ≤ b) (h2 : b ≤ s.data.length) :
    sliceStr s (a : Int) (b : Int) = some (String.mk ((s.data.drop a).take (b - a))) := by
  unfold sliceStr
  rw [if_pos]
  · simp
  · omega

theorem textAfterFirst_nil_of_ne (pat : List Char) (h : pat ≠ []) :
    textAfterFirst pat [] = none := by
  simp [textAfterFirst, h]

theorem resolveFilename_eq (contentDisposition url filename : String) :
    resolveFilename contentDisposition url filename =
      some (if filename ≠ "" then filename
        else
          match headerFilename contentDisposition with
          | some name => if name ≠ "" then name else filepath.Base url
          | none => filepath.Base url) := by
  unfold resolveFilename
  simp only [bind, pure, Option.bind]
  by_cases hf : filename = ""
  swap
  · simp [hf]
  subst hf
  by_cases hcd : contentDisposition = ""
  · subst hcd
    simp [headerFilename, textAfterFirst]
  simp only [ne_eq, hcd, not_false_eq_true, and_self, if_true, not_true_eq_false, if_false]
  rcases strings.indexFrom_spec "filename=".data contentDisposition.data 0 with
    ⟨h1, h2⟩ | ⟨n, h1, h2, h3⟩
  · have hi : strings.Index contentDisposition "filename=" = -1 := h1
    simp [hi, headerFilename, h2]
  · have hi : strings.Index contentDisposition "filename=" = (n : Int) := by
      simpa [strings.Index] using h1
    have hlen : "filename=".data.length = 9 := by decide
    rw [hlen] at h2 h3
    have hne : (n : Int) ≠ -1 := by omega
    have hstart : (n : Int) + 9 = ((n + 9 : Nat) : Int) := by push_cast; rfl
    simp only [hi, ne_eq, hne, not_false_eq_true, if_true, hstart, lenStr]
    rw [sliceStr_eq _ _ _ h2 (le_refl _)]
    have hrest : List.take (contentDisposition.data.length - (n + 9))
        (List.drop (n + 9) contentDisposition.data) = List.drop (n + 9) contentDisposition.data := by
      apply List.take_of_length_le
      simp
    simp only [hrest, headerFilename, h3, Option.map_some']
    rcases strings.indexFrom_rune ';' (List.drop (n + 9) contentDisposition.data) 0 with
      ⟨r1, r2⟩ | ⟨m, r1, r2, r3⟩
    · have hr : strings.IndexRune ⟨List.drop (n + 9) contentDisposition.data⟩ ';' = -1 := r1
      simp only [hr, if_true]
      rw [sliceStr_eq _ _ _ h2 (le_refl _), hrest, r2]
      by_cases ht : strings.Trim ⟨List.drop (n + 9) contentDisposition.data⟩ "\"'" = "" <;>
        simp [ht]
    · have hr : strings.IndexRune ⟨List.drop (n + 9) contentDisposition.data⟩ ';' = (m : Int) := by
        simpa [strings.IndexRune] using r1
      have hne2 : (m : Int) ≠ -1 := by omega
      have hend : (m : Int) + ((n + 9 : Nat) : Int) = ((n + 9 + m : Nat) : Int) := by
        push_cast; ring
      simp only [hr, hne2, if_false, hend]
      have hm : n + 9 + m ≤ contentDisposition.data.length := by
        rw [List.length_drop] at r2; omega
      rw [sliceStr_eq _ _ _ (Nat.le_add_right _ _) hm, r3, Nat.add_sub_cancel_left]
      by_cases ht : strings.Trim ⟨List.take m (List.drop (n + 9) contentDisposition.data)⟩ "\"'" = ""
        <;> simp [ht]

theorem filepath.Base_empty : filepath.Base "" = "." := by decide

theorem filepath.Base_of_decomposition (path : String) (pre name slashes : List Char)
    (hpath : path.data = pre ++ name ++ slashes) (hname : name ≠ [])
    (hno : '/' ∉ name) (hsl : ∀ ch ∈ slashes, ch = '/')
    (hpre : pre = [] ∨ pre.getLast? = some '/') :
    filepath.Base path = String.mk name := by
  have hne : path ≠ "" := by
    intro h
    rw [h] at hpath
    have : name = [] := by
      have h2 : ([] : List Char) = pre ++ name ++ slashes := hpath
      have h3 := congrArg List.length h2
      simp at h3
      exact List.length_eq_zero.mp (by omega)
    exact hname this
  have hnm : ∀ ch ∈ name, ch ≠ '/' := fun ch hch e => hno (e ▸ hch)
  have hstrip : (path.data.reverse.dropWhile (fun c => c = '/')).reverse = pre ++ name := by
    rw [hpath, List.reverse_append,
      List.dropWhile_append_of_pos (by
        intro a ha
        simpa using hsl a (List.mem_reverse.mp ha))]
    rw [List.reverse_append]
    obtain ⟨x, l, hx⟩ := List.exists_cons_of_ne_nil (by simpa using hname : name.reverse ≠ [])
    have hxn : x ≠ '/' := hnm x (List.mem_reverse.mp (hx ▸ List.mem_cons_self _ _))
    rw [hx, List.cons_append, List.dropWhile_cons_of_neg (by simpa using hxn), ← List.cons_append,
      ← hx]
    simp
  have hlast : ((pre ++ name).reverse.takeWhile (fun c => c ≠ '/')).reverse = name := by
    rw [List.reverse_append, List.takeWhile_append_of_pos (by
      intro a ha
      simpa using hnm a (List.mem_reverse.mp ha))]
    have : pre.reverse.takeWhile (fun c => c ≠ '/') = [] := by
      rcases hpre with h | h
      · simp [h]
      · obtain ⟨l, hl⟩ := List.getLast?_eq_some_iff.mp h
        rw [hl]
        simp
    rw [this]
    simp
  unfold filepath.Base
  rw [if_neg hne]
  simp only [hstrip, hlast, if_neg hname]

theorem filepath.Base_of_slashes (path : String) (hne : path ≠ "")
    (hsl : ∀ ch ∈ path.data, ch = '/') : filepath.Base path = "/" := by
  unfold filepath.Base
  rw [if_neg hne]
  have h : path.data.reverse.dropWhile (fun c => c = '/') = [] := by
    rw [List.dropWhile_eq_nil_iff]
    intro x hx
    simpa using hsl x (List.mem_reverse.mp hx)
  simp [h]

theorem takeWhile_append_cons_of_neg {α : Type} (p : α → Bool) (a b : List α) (x : α)
    (hx : p x = false) : (a ++ x :: b).takeWhile p = a.takeWhile p := by
  induction a with
  | nil => simp [List.takeWhile_cons, hx]
  | cons y a ih =>
    by_cases hy : p y = true
    · simp [List.takeWhile_cons, hy, ih]
    · simp [List.takeWhile_cons, hy]

theorem filepath.Base_eq_urlFinalPathSegment (url : String)
    (hq : '?' ∉ url.data) (hf : '#' ∉ url.data) (hlast : url.data.getLast? ≠ some '/')
    (hp : urlPath url ≠ []) : filepath.Base url = urlFinalPathSegment url := by
  have h1 : url.data.takeWhile (fun c => c ≠ '#') = url.data := by
    rw [List.takeWhile_eq_self_iff]
    intro x hx
    have hxne : x ≠ '#' := fun e => hf (e ▸ hx)
    simpa using hxne
  have h2 : url.data.takeWhile (fun c => c ≠ '?') = url.data := by
    rw [List.takeWhile_eq_self_iff]
    intro x hx
    have hxne : x ≠ '?' := fun e => hq (e ▸ hx)
    simpa using hxne
  have hpath : urlPath url =
      match textAfterFirst "://".data url.data with
      | some afterScheme => afterScheme.dropWhile (fun c => c ≠ '/')
      | none => url.data := by
    unfold urlPath
    simp only [h1, h2]
  have hd : url.data ≠ [] := by
    intro h
    rw [hpath, h] at hp
    exact hp (by decide)
  have hne : url ≠ "" := fun h => hd (by rw [h])
  obtain ⟨x, l, hx⟩ := List.exists_cons_of_ne_nil (by simpa using hd : url.data.reverse ≠ [])
  have hxs : x ≠ '/' := by
    intro e
    apply hlast
    rw [List.getLast?_eq_head?_reverse, hx, e]
    rfl
  have hbase : filepath.Base url =
      String.mk (url.data.reverse.takeWhile (fun c => c ≠ '/')).reverse := by
    unfold filepath.Base
    rw [if_neg hne]
    have hs : url.data.reverse.dropWhile (fun c => c = '/') = url.data.reverse := by
      rw [hx, List.dropWhile_cons_of_neg (by simpa using hxs)]
    simp only [hs, List.reverse_reverse]
    rw [if_neg]
    rw [hx, List.takeWhile_cons_of_pos (by simpa using hxs)]
    simp
  rw [hbase]
  unfold urlFinalPathSegment
  congr 2
  cases ht : textAfterFirst "://".data url.data with
  | none => rw [hpath, ht]
  | some rest =>
    rw [hpath, ht] at hp ⊢
    simp only at hp ⊢
    obtain ⟨pre, hpre⟩ := textAfterFirst_some _ _ _ ht
    obtain ⟨y, t, hy⟩ := List.exists_cons_of_ne_nil hp
    have hys : y = '/' := by
      have := List.head_dropWhile_not (fun c => decide (c ≠ '/')) rest hp
      simp only [hy, List.head_cons] at this
      simpa using this
    subst hys
    have hrest : rest = rest.takeWhile (fun c => c ≠ '/') ++ '/' :: t := by
      rw [← hy, List.takeWhile_append_dropWhile]
    have hdata : url.data =
        (pre ++ "://".data ++ rest.takeWhile (fun c => c ≠ '/')) ++ '/' :: t := by
      rw [hpre]
      conv_lhs => rw [hrest]
      simp only [List.append_assoc]
    have key : ∀ A : List Char,
        (A ++ '/' :: t).reverse.takeWhile (fun c => c ≠ '/') =
          t.reverse.takeWhile (fun c => c ≠ '/') := by
      intro A
      rw [List.reverse_append, List.reverse_cons, List.append_assoc, List.singleton_append,
        takeWhile_append_cons_of_neg _ _ _ _ (by decide)]
    rw [hy, hdata, key]
    have := key []
    rw [List.nil_append] at this
    rw [this]

theorem filepath.Base_ne_empty (path : String) : filepath.Base path ≠ "" := by
  unfold filepath.Base
  by_cases h : path = ""
  · rw [if_pos h]; decide
  · rw [if_neg h]
    simp only
    split
    · decide
    · rename_i hl
      intro hc
      exact hl (congrArg String.data hc)

theorem resolveFilename_ne_empty (contentDisposition url filename name : String)
    (h : resolveFilename contentDisposition url filename = some name) : name ≠ "" := by
  rw [resolveFilename_eq] at h
  have h := (Option.some.inj h).symm
  subst h
  by_cases hf : filename = ""
  · rw [if_neg (not_not.mpr hf)]
    cases headerFilename contentDisposition with
    | none => exact filepath.Base_ne_empty url
    | some n =>
      by_cases hn : n = ""
      · simp only [hn, ne_eq, not_true_eq_false, if_false]
        exact filepath.Base_ne_empty url
      · simp only [ne_eq, hn, not_false_eq_true, if_true]
  · rw [if_pos hf]; exact hf

/-! ## Lemmas on the option loop and the picker loop -/

theorem suppliedValue_cons (name : String) (o : ApplicationCommandInteractionDataOption)
    (rest : List ApplicationCommandInteractionDataOption)
    (hrest : ∀ p ∈ rest, p.Name = name → p.Value ≠ none → ∃ v, p.StringValue = some v) :
    suppliedValue name (o :: rest) =
      match suppliedValue name rest with
      | some v => some v
      | none => if o.Name = name ∧ o.Value ≠ none then o.StringValue else none := by
  unfold suppliedValue
  have key : ∀ q ∈ rest.filter (fun o => o.Name = name ∧ o.Value ≠ none),
      ∃ v, q.StringValue = some v := by
    intro q hq
    have := List.mem_filter.mp hq
    have h2 := this.2
    simp only [ne_eq, decide_not, Bool.decide_and, Bool.and_eq_true, decide_eq_true_eq,
      Bool.not_eq_true', decide_eq_false_iff_not] at h2
    exact hrest q this.1 h2.1 h2.2
  rw [List.filter_cons]
  generalize rest.filter (fun o => o.Name = name ∧ o.Value ≠ none) = l at key
  by_cases ho : o.Name = name ∧ o.Value ≠ none
  · rw [if_pos (by simpa using ho), List.getLast?_cons]
    cases hl : l.getLast? with
    | none => simp only [Option.getD_none, Option.some_bind, Option.none_bind, if_pos ho]
    | some q =>
      obtain ⟨v, hv⟩ := key q (List.mem_of_getLast?_eq_some hl)
      simp only [Option.getD_some, Option.some_bind, hv]
  · rw [if_neg (by simpa using ho)]
    cases hl : l.getLast? with
    | none => simp only [Option.none_bind, if_neg ho]
    | some q =>
      obtain ⟨v, hv⟩ := key q (List.mem_of_getLast?_eq_some hl)
      simp only [Option.some_bind, hv]

theorem buildRequestOptions_loop_eq (options : List ApplicationCommandInteractionDataOption)
    (h : ∀ o ∈ options, (o.Name = "quality" ∨ o.Name = "mode") → o.Value ≠ none →
      ∃ v, o.StringValue = some v)
    (requestOptions : RequestOptions) :
    buildRequestOptions.loop options requestOptions =
      some { requestOptions with
        VideoQuality := (suppliedValue "quality" options).getD requestOptions.VideoQuality,
        DownloadMode := (suppliedValue "mode" options).getD requestOptions.DownloadMode } := by
  induction options generalizing requestOptions with
  | nil => simp [buildRequestOptions.loop, suppliedValue]
  | cons o rest ih =>
    have hrest : ∀ p ∈ rest, (p.Name = "quality" ∨ p.Name = "mode") → p.Value ≠ none →
        ∃ v, p.StringValue = some v := fun p hp => h p (List.mem_cons_of_mem _ hp)
    have hq := suppliedValue_cons "quality" o rest (fun p hp hn => hrest p hp (Or.inl hn))
    have hm := suppliedValue_cons "mode" o rest (fun p hp hn => hrest p hp (Or.inr hn))
    rw [hq, hm]
    unfold buildRequestOptions.loop
    by_cases h1 : o.Name = "quality"
    · have h1' : ¬ o.Name = "mode" := by rw [h1]; decide
      by_cases h2 : o.Value = none
      · simp only [h1, h1', h2, ne_eq, not_true_eq_false, if_false, if_true, and_false,
          false_and]
        rw [ih hrest]
        cases suppliedValue "quality" rest <;> cases suppliedValue "mode" rest <;> rfl
      · obtain ⟨v, hv⟩ := h o (List.mem_cons_self _ _) (Or.inl h1) h2
        simp only [h1, h1', h2, ne_eq, not_false_eq_true, if_true, hv, and_self, false_and,
          if_false, bind, Option.bind]
        rw [ih hrest]
        cases suppliedValue "quality" rest <;> cases suppliedValue "mode" rest <;> rfl
    · by_cases h3 : o.Name = "mode"
      · have h4 : ¬ "mode" = "quality" := by decide
        rw [h3] at h1
        by_cases h2 : o.Value = none
        · simp only [h3, h4, h2, ne_eq, not_true_eq_false, if_false, if_true, and_false,
            false_and]
          rw [ih hrest]
          cases suppliedValue "quality" rest <;> cases suppliedValue "mode" rest <;> rfl
        · obtain ⟨v, hv⟩ := h o (List.mem_cons_self _ _) (Or.inr h3) h2
          simp only [h3, h4, h2, ne_eq, not_false_eq_true, if_true, hv, and_self, false_and,
            if_false, bind, Option.bind]
          rw [ih hrest]
          cases suppliedValue "quality" rest <;> cases suppliedValue "mode" rest <;> rfl
      · simp only [h1, h3, if_false, false_and]
        rw [ih hrest]
        cases suppliedValue "quality" rest <;> cases suppliedValue "mode" rest <;> rfl

theorem handleMediaPicker_loop_eq (up : Char → Char) (items : List PickerItem) (i : Nat)
    (content : String) :
    handleMediaPicker.loop up items i content =
      content ++ concatStrings ((items.enumFrom (i + 1)).map (fun p =>
        fmtD (p.1 : Int) ++ ". " ++ strings.ToUpper up p.2.Type_
          ++ ": [Download](" ++ p.2.URL ++ ")" ++ "\n")) := by
  induction items generalizing i content with
  | nil => simp [handleMediaPicker.loop, concatStrings]
  | cons item rest ih =>
    simp [handleMediaPicker.loop, ih, concatStrings, String.append_assoc]

/-! ## Lemmas on the runs of the command -/

theorem Client.DownloadFile_ne_none (c : Client) (url filename : String) :
    c.DownloadFile url filename ≠ none := by
  unfold Client.DownloadFile
  cases c.newRequestError "GET" url with
  | some err => simp
  | none =>
    cases c.doGet url with
    | error err => simp
    | ok resp =>
      by_cases hs : resp.StatusCode < 200 ∨ resp.StatusCode ≥ 300
      · simp [hs]
      · simp only [if_neg hs]
        cases resp.Body with
        | error err => simp
        | ok body => simp [resolveFilename_eq]

theorem visibleOutputs_editResponse (s : Session) (content : String)
    (h : s.InteractionResponseEdit content [] = none) :
    visibleOutputs (editResponse s content) = [(content, [])] := by
  simp [editResponse, h, visibleOutputs, Event.visible]

theorem visibleOutputs_editResponseWithError (s : Session) (message err : String)
    (h : s.InteractionResponseEdit (message ++ ": " ++ err) [] = none) :
    visibleOutputs (editResponseWithError s message err) = [(message ++ ": " ++ err, [])] := by
  simp [editResponseWithError, h, visibleOutputs, Event.visible]

theorem visibleOutputs_cons_submit (options : RequestOptions) (trace : List Event) :
    visibleOutputs (.submit options :: trace) = visibleOutputs trace := by
  simp [visibleOutputs, Event.visible]

theorem visibleOutputs_cons_fetch (url filename : String) (trace : List Event) :
    visibleOutputs (.fetch url filename :: trace) = visibleOutputs trace := by
  simp [visibleOutputs, Event.visible]

theorem visibleOutputs_append (t1 t2 : List Event) :
    visibleOutputs (t1 ++ t2) = visibleOutputs t1 ++ visibleOutputs t2 := by
  simp [visibleOutputs]

theorem handleDownloadableMedia_one_output (s : Session) (client : Client)
    (result : CobaltResponse)
    (htext : ∀ content, s.InteractionResponseEdit content [] = none) :
    ∃ trace, handleDownloadableMedia s client result = some trace ∧
      (visibleOutputs trace).length = 1 := by
  unfold handleDownloadableMedia
  cases hd : client.DownloadFile result.URL result.Filename with
  | none => exact absurd hd (Client.DownloadFile_ne_none _ _ _)
  | some r =>
    cases r with
    | error err =>
      refine ⟨_, rfl, ?_⟩
      rw [visibleOutputs_cons_fetch, visibleOutputs_editResponseWithError _ _ _ (htext _)]
      rfl
    | ok v =>
      obtain ⟨videoData, filename⟩ := v
      simp only [sendVideoFile]
      cases h1 : s.InteractionResponseEdit "Here's your video:"
          [{ Name := filename, Data := videoData }] with
      | none =>
        refine ⟨_, rfl, ?_⟩
        simp [visibleOutputs, Event.visible]
      | some e1 =>
        cases h2 : s.FollowupMessageCreate "Here's your video:"
            [{ Name := filename, Data := videoData }] with
        | none =>
          refine ⟨_, rfl, ?_⟩
          simp [visibleOutputs, Event.visible]
        | some e2 =>
          refine ⟨_, rfl, ?_⟩
          rw [visibleOutputs_append, visibleOutputs_editResponse _ _ (htext _)]
          simp [visibleOutputs, Event.visible]

/-! ## The claims -/

/-- Claim C1.  For every `RequestOptions` value the payload map of `ProcessVideo` has the keys
`url`, `videoQuality` and `downloadMode` with the option's values; it has the key of an optional
string field exactly when that field is not the empty string (the value then being the field),
and the key of an optional boolean field exactly when that field is true (the value then being
`true`). -/
theorem buildPayload_optional_field_omission (o : RequestOptions) :
    (buildPayload o).get? "url" = some (.str o.URL) ∧
    (buildPayload o).get? "videoQuality" = some (.str o.VideoQuality) ∧
    (buildPayload o).get? "downloadMode" = some (.str o.DownloadMode) ∧
    (("audioFormat" ∈ (buildPayload o).keys ↔ o.AudioFormat ≠ "") ∧
      (buildPayload o).get? "audioFormat" =
        if o.AudioFormat ≠ "" then some (.str o.AudioFormat) else none) ∧
    (("audioBitrate" ∈ (buildPayload o).keys ↔ o.AudioBitrate ≠ "") ∧
      (buildPayload o).get? "audioBitrate" =
        if o.AudioBitrate ≠ "" then some (.str o.AudioBitrate) else none) ∧
    (("filenameStyle" ∈ (buildPayload o).keys ↔ o.FilenameStyle ≠ "") ∧
      (buildPayload o).get? "filenameStyle" =
        if o.FilenameStyle ≠ "" then some (.str o.FilenameStyle) else none) ∧
    (("youtubeVideoCodec" ∈ (buildPayload o).keys ↔ o.YoutubeVideoCodec ≠ "") ∧
      (buildPayload o).get? "youtubeVideoCodec" =
        if o.YoutubeVideoCodec ≠ "" then some (.str o.YoutubeVideoCodec) else none) ∧
    (("youtubeDubLang" ∈ (buildPayload o).keys ↔ o.YoutubeDubLang ≠ "") ∧
      (buildPayload o).get? "youtubeDubLang" =
        if o.YoutubeDubLang ≠ "" then some (.str o.YoutubeDubLang) else none) ∧
    (("alwaysProxy" ∈ (buildPayload o).keys ↔ o.AlwaysProxy = true) ∧
      (buildPayload o).get? "alwaysProxy" =
        if o.AlwaysProxy = true then some (.bool true) else none) ∧
    (("disableMetadata" ∈ (buildPayload o).keys ↔ o.DisableMetadata = true) ∧
      (buildPayload o).get? "disableMetadata" =
        if o.DisableMetadata = true then some (.bool true) else none) ∧
    (("tiktokFullAudio" ∈ (buildPayload o).keys ↔ o.TiktokFullAudio = true) ∧
      (buildPayload o).get? "tiktokFullAudio" =
        if o.TiktokFullAudio = true then some (.bool true) else none) ∧
    (("tiktokH265" ∈ (buildPayload o).keys ↔ o.TiktokH265 = true) ∧
      (buildPayload o).get? "tiktokH265" =
        if o.TiktokH265 = true then some (.bool true) else none) ∧
    (("twitterGif" ∈ (buildPayload o).keys ↔ o.TwitterGif = true) ∧
      (buildPayload o).get? "twitterGif" =
        if o.TwitterGif = true then some (.bool true) else none) ∧
    (("youtubeHLS" ∈ (buildPayload o).keys ↔ o.YoutubeHLS = true) ∧
      (buildPayload o).get? "youtubeHLS" =
        if o.YoutubeHLS = true then some (.bool true) else none) := by
  simp only [GoMap.mem_keys_iff, buildPayload, GoMap.get?_ite_set]
  simp [GoMap.get?]

/-- Claim C2.  For every Result that `ProcessVideo` returns, whatever its status and whatever the
outcome of the download and of the two attachment attempts, the run of `processAndSendVideo`
ends without a panic and has exactly one user-visible output (a text edit, an edit with the
file, or a follow-up with the file, accepted by the platform), provided the platform accepts
every plain-text edit of the pending response. -/
theorem processAndSendVideo_exactly_one_output (unicodeToUpper : Char → Char) (s : Session)
    (client : Client) (options : RequestOptions) (result : CobaltResponse)
    (hsubmit : client.ProcessVideo options = .ok result)
    (htext : ∀ content, s.InteractionResponseEdit content [] = none) :
    ∃ trace, processAndSendVideo unicodeToUpper s client options = some trace ∧
      (visibleOutputs trace).length = 1 := by
  unfold processAndSendVideo
  rw [hsubmit]
  simp only
  by_cases h1 : result.Status = "redirect" ∨ result.Status = "tunnel"
  · obtain ⟨trace, ht, hl⟩ := handleDownloadableMedia_one_output s client result htext
    refine ⟨.submit options :: trace, ?_, ?_⟩
    · simp [h1, ht]
    · rw [visibleOutputs_cons_submit]; exact hl
  · rw [if_neg h1]
    by_cases h2 : result.Status = "picker"
    · rw [if_pos h2]
      refine ⟨_, rfl, ?_⟩
      rw [visibleOutputs_cons_submit, handleMediaPicker,
        visibleOutputs_editResponse _ _ (htext _)]
      rfl
    · rw [if_neg h2]
      by_cases h3 : result.Status = "error"
      · rw [if_pos h3]
        refine ⟨_, rfl, ?_⟩
        rw [visibleOutputs_cons_submit, handleErrorResponse,
          visibleOutputs_editResponse _ _ (htext _)]
        rfl
      · rw [if_neg h3]
        refine ⟨_, rfl, ?_⟩
        rw [visibleOutputs_cons_submit, visibleOutputs_editResponse _ _ (htext _)]
        rfl

theorem processAndSendVideo_exactly_one_output_witness :
    (fixedClient 200 "" { Status := "tunnel", URL := "https://cdn.example/v.mp4" } 200 "").ProcessVideo
        { URL := "https://x.com/v", VideoQuality := "1080", DownloadMode := "auto" } =
      .ok { Status := "tunnel", URL := "https://cdn.example/v.mp4" } ∧
    (∀ content, fileRejectingSession.InteractionResponseEdit content [] = none) ∧
    ∃ trace, processAndSendVideo id fileRejectingSession
        (fixedClient 200 "" { Status := "tunnel", URL := "https://cdn.example/v.mp4" } 200 "")
        { URL := "https://x.com/v", VideoQuality := "1080", DownloadMode := "auto" } = some trace ∧
      (visibleOutputs trace).length = 1 :=
  ⟨rfl, fun _ => rfl,
    processAndSendVideo_exactly_one_output id fileRejectingSession _ _ _ rfl (fun _ => rfl)⟩

/-- Claim C3, counterexample.  With no `filename` argument and no `Content-Disposition` header
the filename `DownloadFile` returns is not the final path segment of the URL: for a URL whose
query contains a `/` it is the text after that `/`, for a tunnel URL it is the last element
together with the query, and for a URL whose path is `/` it is the host. -/
theorem DownloadFile_final_path_segment_counterexample :
    (fixedClient 200 "" {} 200 "").DownloadFile "https://cdn.example/media/v.mp4?token=a/b" "" =
      some (.ok ([1, 2, 3], "b")) ∧
    urlFinalPathSegment "https://cdn.example/media/v.mp4?token=a/b" = "v.mp4" ∧
    resolveFilename "" "https://cdn.example/media/v.mp4?token=a/b" "" ≠
      some (urlFinalPathSegment "https://cdn.example/media/v.mp4?token=a/b") ∧
    (fixedClient 200 "" {} 200 "").DownloadFile
        "https://api.cobalt.tools/tunnel?id=abc&exp=1&sig=xyz" "" =
      some (.ok ([1, 2, 3], "tunnel?id=abc&exp=1&sig=xyz")) ∧
    urlFinalPathSegment "https://api.cobalt.tools/tunnel?id=abc&exp=1&sig=xyz" = "tunnel" ∧
    (fixedClient 200 "" {} 200 "").DownloadFile "https://cdn.example/" "" =
      some (.ok ([1, 2, 3], "cdn.example")) ∧
    urlFinalPathSegment "https://cdn.example/" = "" := by
  refine ⟨rfl, by decide, by decide, rfl, by decide, rfl, by decide⟩

/-- Claim C3, amended.  For a successful download (request created, response with a 2xx status
and a readable body), `DownloadFile` returns the body with a filename chosen by exactly one tier:
a non-empty `filename` argument is returned unchanged, whatever the header and the URL; otherwise
a non-empty filename yielded by the `Content-Disposition` header (the text after `filename=` up to
the next `;`, quote characters trimmed) is returned; otherwise, the header having no `filename=`
or yielding the empty text, the result is `filepath.Base` of the whole URL string: `.` for the
empty URL, `/` for a URL of slashes only, and else the text between the last `/` and the end of
the URL once its trailing slashes are dropped, query and fragment included.  That text is the
final path segment of the URL when the URL has no query and no fragment, does not end in `/` and
has a non-empty path. -/
theorem DownloadFile_filename_resolution (c : Client) (url filename : String)
    (resp : HttpResponse Bytes) (body : Bytes)
    (hreq : c.newRequestError "GET" url = none)
    (hget : c.doGet url = .ok resp)
    (hstatus : 200 ≤ resp.StatusCode ∧ resp.StatusCode < 300)
    (hbody : resp.Body = .ok body) :
    (filename ≠ "" → c.DownloadFile url filename = some (.ok (body, filename))) ∧
    (filename = "" → ∀ name, headerFilename (resp.HeaderGet "Content-Disposition") = some name →
      name ≠ "" → c.DownloadFile url filename = some (.ok (body, name))) ∧
    (filename = "" →
      (headerFilename (resp.HeaderGet "Content-Disposition") = none ∨
        headerFilename (resp.HeaderGet "Content-Disposition") = some "") →
      c.DownloadFile url filename = some (.ok (body, filepath.Base url)) ∧
      (url = "" → c.DownloadFile url filename = some (.ok (body, "."))) ∧
      (url ≠ "" → (∀ ch ∈ url.data, ch = '/') →
        c.DownloadFile url filename = some (.ok (body, "/"))) ∧
      (∀ pre name slashes : List Char, url.data = pre ++ name ++ slashes → name ≠ [] →
        '/' ∉ name → (∀ ch ∈ slashes, ch = '/') → (pre = [] ∨ pre.getLast? = some '/') →
        c.DownloadFile url filename = some (.ok (body, String.mk name))) ∧
      ('?' ∉ url.data → '#' ∉ url.data → url.data.getLast? ≠ some '/' → urlPath url ≠ [] →
        c.DownloadFile url filename = some (.ok (body, urlFinalPathSegment url)))) := by
  have hs : ¬ (resp.StatusCode < 200 ∨ resp.StatusCode ≥ 300) := by omega
  have key : c.DownloadFile url filename =
      some (.ok (body, if filename ≠ "" then filename
        else
          match headerFilename (resp.HeaderGet "Content-Disposition") with
          | some name => if name ≠ "" then name else filepath.Base url
          | none => filepath.Base url)) := by
    unfold Client.DownloadFile
    simp only [hreq, hget, if_neg hs, hbody, resolveFilename_eq]
  refine ⟨?_, ?_, ?_⟩
  · intro h
    rw [key, if_pos h]
  · intro h name hn hne
    rw [key, if_neg (not_not.mpr h), hn]
    simp only [if_pos hne]
  · intro h hn
    have hbase : c.DownloadFile url filename = some (.ok (body, filepath.Base url)) := by
      rw [key, if_neg (not_not.mpr h)]
      rcases hn with hn | hn
      · rw [hn]
      · rw [hn]
        simp
    refine ⟨hbase, ?_, ?_, ?_, ?_⟩
    · intro hu
      rw [hbase, hu, filepath.Base_empty]
    · intro hu hsl
      rw [hbase, filepath.Base_of_slashes url hu hsl]
    · intro pre name slashes hd hname hno hsl hpre
      rw [hbase, filepath.Base_of_decomposition url pre name slashes hd hname hno hsl hpre]
    · intro hq hf hl hp
      rw [hbase, filepath.Base_eq_urlFinalPathSegment url hq hf hl hp]

theorem DownloadFile_filename_resolution_witness :
    ((fixedClient 200 "" {} 200 "attachment; filename=\"clip.mp4\"; size=3").newRequestError
      "GET" "https://cdn.example/media/v.bin" = none ∧
    (200 : Int) ≤ 200 ∧ (200 : Int) < 300 ∧
    headerFilename "attachment; filename=\"clip.mp4\"; size=3" = some "clip.mp4" ∧
    (fixedClient 200 "" {} 200 "attachment; filename=\"clip.mp4\"; size=3").DownloadFile
      "https://cdn.example/media/v.bin" "" = some (.ok ([1, 2, 3], "clip.mp4"))) ∧
    (headerFilename "" = none ∧
    urlPath "https://cdn.example/media/v.bin" = "/media/v.bin".data ∧
    urlFinalPathSegment "https://cdn.example/media/v.bin" = "v.bin" ∧
    (fixedClient 200 "" {} 200 "").DownloadFile "https://cdn.example/media/v.bin" "" =
      some (.ok ([1, 2, 3], urlFinalPathSegment "https://cdn.example/media/v.bin"))) ∧
    (fixedClient 200 "" {} 200 "").DownloadFile "https://cdn.example/media/clip.mp4//" "" =
      some (.ok ([1, 2, 3], String.mk "clip.mp4".data)) :=
  ⟨⟨rfl, by decide, by decide, by decide,
    (DownloadFile_filename_resolution
      (fixedClient 200 "" {} 200 "attachment; filename=\"clip.mp4\"; size=3")
      "https://cdn.example/media/v.bin" ""
      { StatusCode := 200
        HeaderGet := fun k =>
          if k = "Content-Disposition" then "attachment; filename=\"clip.mp4\"; size=3" else ""
        Body := .ok [1, 2, 3] }
      [1, 2, 3] rfl rfl ⟨by decide, by decide⟩ rfl).2.1 rfl "clip.mp4" (by decide)
      (by decide)⟩,
   ⟨by decide, by decide, by decide,
    ((DownloadFile_filename_resolution (fixedClient 200 "" {} 200 "")
      "https://cdn.example/media/v.bin" ""
      { StatusCode := 200
        HeaderGet := fun k => if k = "Content-Disposition" then "" else ""
        Body := .ok [1, 2, 3] }
      [1, 2, 3] rfl rfl ⟨by decide, by decide⟩ rfl).2.2 rfl (Or.inl (by decide))).2.2.2.2
      (by decide) (by decide) (by decide) (by decide)⟩,
   ((DownloadFile_filename_resolution (fixedClient 200 "" {} 200 "")
      "https://cdn.example/media/clip.mp4//" ""
      { StatusCode := 200
        HeaderGet := fun k => if k = "Content-Disposition" then "" else ""
        Body := .ok [1, 2, 3] }
      [1, 2, 3] rfl rfl ⟨by decide, by decide⟩ rfl).2.2 rfl (Or.inl (by decide))).2.2.2.1
      "https://cdn.example/media/".data "clip.mp4".data "//".data (by decide) (by decide)
      (by decide) (by decide) (Or.inr (by decide))⟩

/-- Claim C4.  The text `handleErrorResponse` sends is `Error: <code>` when there is no context;
with a context it is `Error: <code>`, then ` (Service: <service>)` exactly when the service name
is not empty, then ` (Limit: <n>)` with `n` in decimal exactly when the limit is positive.  The
code `content.too_long` with a context of limit 500 and no service renders
`Error: content.too_long (Limit: 500)`. -/
theorem handleErrorResponse_text (s : Session) (result : CobaltResponse) :
    (result.Error.Context = none →
      handleErrorResponse s result = editResponse s ("Error: " ++ result.Error.Code)) ∧
    (∀ context, result.Error.Context = some context →
      handleErrorResponse s result = editResponse s
        ("Error: " ++ result.Error.Code
          ++ (if context.Service ≠ "" then " (Service: " ++ context.Service ++ ")" else "")
          ++ (if context.Limit > 0 then " (Limit: " ++ fmtD context.Limit ++ ")" else ""))) ∧
    handleErrorResponse.errorMsg
        { Status := "error",
          Error := { Code := "content.too_long", Context := some { Limit := 500 } } } =
      "Error: content.too_long (Limit: 500)" := by
  refine ⟨?_, ?_, by decide⟩
  · intro h
    simp [handleErrorResponse, handleErrorResponse.errorMsg, h]
  · intro context h
    simp only [handleErrorResponse, handleErrorResponse.errorMsg, h]
    by_cases h1 : context.Service = "" <;> by_cases h2 : context.Limit > 0 <;>
      simp [h1, h2]

theorem handleErrorResponse_text_witness :
    visibleOutputs (handleErrorResponse acceptingSession
      { Status := "error",
        Error := { Code := "error.api.fetch.rate",
                   Context := some { Service := "youtube", Limit := 20 } } }) =
      [("Error: error.api.fetch.rate (Service: youtube) (Limit: 20)", [])] :=
  (handleErrorResponse_text acceptingSession
      { Status := "error",
        Error := { Code := "error.api.fetch.rate",
                   Context := some { Service := "youtube", Limit := 20 } } }).2.1
    { Service := "youtube", Limit := 20 } rfl ▸ by decide

/-- Claim C5.  The message `handleMediaPicker` sends is the introduction, then the
`**Common Audio**` heading with its link exactly when the shared audio URL is not empty, then one
line per picker item, in the order of the items and numbered from 1, the line of item `k` being
`k. <TYPE>: [Download](<url>)` with `TYPE` the upper-cased type tag.  The items photo `https://a`
and video `https://b` without audio render two lines tagged `PHOTO` and `VIDEO` and no audio
heading, whatever the Unicode case table. -/
theorem handleMediaPicker_numbered_lines (unicodeToUpper : Char → Char) (s : Session)
    (result : CobaltResponse) :
    handleMediaPicker unicodeToUpper s result = editResponse s
      ("Multiple media items found. Use the links below to download:\n\n"
        ++ (if result.Audio ≠ "" then
              "**Common Audio**: [" ++ result.AudioFilename ++ "](" ++ result.Audio ++ ")\n\n"
            else "")
        ++ concatStrings ((result.Picker.enumFrom 1).map (fun p =>
            fmtD (p.1 : Int) ++ ". " ++ strings.ToUpper unicodeToUpper p.2.Type_
              ++ ": [Download](" ++ p.2.URL ++ ")" ++ "\n"))) ∧
    handleMediaPicker.content unicodeToUpper
        { Status := "picker",
          Picker := [{ Type_ := "photo", URL := "https://a" },
                     { Type_ := "video", URL := "https://b" }] } =
      "Multiple media items found. Use the links below to download:\n\n"
        ++ "1. PHOTO: [Download](https://a)\n" ++ "2. VIDEO: [Download](https://b)\n" := by
  refine ⟨?_, rfl⟩
  simp only [handleMediaPicker, handleMediaPicker.content, handleMediaPicker_loop_eq]
  by_cases h : result.Audio = ""
  · simp [h]
  · simp [h, String.append_assoc]

/-- Claim C6.  For a non-empty option list whose first option holds the URL string, and whose
`quality` and `mode` options hold strings when they have a value (the command registers both as
string options), `buildRequestOptions` returns the Request with that URL unchanged, with
`videoQuality` the supplied `quality` value if there is one and `1080` otherwise, with
`downloadMode` the supplied `mode` value if there is one and `auto` otherwise, and with every
other field unset.  With the URL `https://x.com/v` alone the Request has `1080` and `auto`, and
its payload has no optional key. -/
theorem buildRequestOptions_defaults
    (first : ApplicationCommandInteractionDataOption)
    (rest : List ApplicationCommandInteractionDataOption) (url : String)
    (hurl : first.StringValue = some url)
    (hstr : ∀ o ∈ first :: rest, (o.Name = "quality" ∨ o.Name = "mode") → o.Value ≠ none →
      o.StringValue.isSome = true) :
    buildRequestOptions (first :: rest) =
      some { URL := url,
             VideoQuality := (suppliedValue "quality" (first :: rest)).getD "1080",
             DownloadMode := (suppliedValue "mode" (first :: rest)).getD "auto" } ∧
    buildRequestOptions
        [{ Name := "url", Type_ := .String, Value := some (.str "https://x.com/v") }] =
      some { URL := "https://x.com/v", VideoQuality := "1080", DownloadMode := "auto" } ∧
    (buildPayload { URL := "https://x.com/v", VideoQuality := "1080", DownloadMode := "auto" }).keys
      = ["url", "videoQuality", "downloadMode"] := by
  refine ⟨?_, by decide, by decide⟩
  simp only [buildRequestOptions, hurl, bind, Option.bind]
  rw [buildRequestOptions_loop_eq _
    (fun o ho hn hv => Option.isSome_iff_exists.mp (hstr o ho hn hv))]

theorem buildRequestOptions_defaults_witness :
    buildRequestOptions
        [{ Name := "url", Type_ := .String, Value := some (.str "https://x.com/v") },
         { Name := "mode", Type_ := .String, Value := some (.str "audio") }] =
      some { URL := "https://x.com/v", VideoQuality := "1080", DownloadMode := "audio" } :=
  (buildRequestOptions_defaults
    { Name := "url", Type_ := .String, Value := some (.str "https://x.com/v") }
    [{ Name := "mode", Type_ := .String, Value := some (.str "audio") }]
    "https://x.com/v" rfl (by decide)).1

/-- Claim C7.  For a Result of status `redirect` or `tunnel` whose download succeeds and whose
attachment fails (the edit with the file and the follow-up with the file are both rejected, with
any error texts), the run ends normally, and its only user-visible output is the plain-text
message `The video is too large to send directly. You can download it here: <URL>` with the
Result's URL, provided the platform accepts that text edit.  The message is the same whatever
the attachment errors are; the error of the rejected edit goes to the log. -/
theorem handleDownloadableMedia_link_fallback (unicodeToUpper : Char → Char) (s : Session)
    (client : Client) (options : RequestOptions) (result : CobaltResponse)
    (videoData : Bytes) (filename editErr followupErr : String)
    (hsubmit : client.ProcessVideo options = .ok result)
    (hstatus : result.Status = "redirect" ∨ result.Status = "tunnel")
    (hfetch : client.DownloadFile result.URL result.Filename = some (.ok (videoData, filename)))
    (hedit : s.InteractionResponseEdit "Here's your video:"
      [{ Name := filename, Data := videoData }] = some editErr)
    (hfollowup : s.FollowupMessageCreate "Here's your video:"
      [{ Name := filename, Data := videoData }] = some followupErr)
    (htext : s.InteractionResponseEdit
      ("The video is too large to send directly. You can download it here: " ++ result.URL) []
      = none) :
    ∃ trace, processAndSendVideo unicodeToUpper s client options = some trace ∧
      visibleOutputs trace =
        [("The video is too large to send directly. You can download it here: " ++ result.URL,
          [])] ∧
      logLines trace = ["Error editing interaction with file: " ++ editErr] := by
  refine ⟨[.submit options, .fetch result.URL result.Filename,
      .responseEdit "Here's your video:" [{ Name := filename, Data := videoData }] (some editErr),
      .log ("Error editing interaction with file: " ++ editErr),
      .followup "Here's your video:" [{ Name := filename, Data := videoData }]
        (some followupErr),
      .responseEdit
        ("The video is too large to send directly. You can download it here: " ++ result.URL)
        [] none], ?_, ?_, ?_⟩
  · simp [processAndSendVideo, hsubmit, hstatus, handleDownloadableMedia, hfetch,
      sendVideoFile, hedit, hfollowup, editResponse, htext]
  · simp [visibleOutputs, Event.visible]
  · simp [logLines]

theorem handleDownloadableMedia_link_fallback_witness :
    ∃ trace, processAndSendVideo id fileRejectingSession
        (fixedClient 200 "" { Status := "tunnel", URL := "https://cdn.example/v.mp4" } 200 "")
        { URL := "https://x.com/v", VideoQuality := "1080", DownloadMode := "auto" } = some trace ∧
      visibleOutputs trace =
        [("The video is too large to send directly. You can download it here: "
            ++ "https://cdn.example/v.mp4", [])] ∧
      logLines trace =
        ["Error editing interaction with file: " ++ "HTTP 413 Request Entity Too Large"] :=
  handleDownloadableMedia_link_fallback id fileRejectingSession
    (fixedClient 200 "" { Status := "tunnel", URL := "https://cdn.example/v.mp4" } 200 "")
    { URL := "https://x.com/v", VideoQuality := "1080", DownloadMode := "auto" }
    { Status := "tunnel", URL := "https://cdn.example/v.mp4" }
    [1, 2, 3] "v.mp4" "HTTP 413 Request Entity Too Large" "HTTP 413 Request Entity Too Large"
    rfl (by decide) rfl rfl rfl rfl

/-- Claim C8, counterexample.  A transport failure and a 500 answer of the API give the user
two different texts, each the generic message followed by the detail of the error: neither is the
bare `Error processing video`. -/
theorem editResponseWithError_generic_text_counterexample :
    (unreachableClient "dial tcp: connection refused").ProcessVideo
        { URL := "https://x.com/v", VideoQuality := "1080", DownloadMode := "auto" } =
      .error "error executing request: dial tcp: connection refused" ∧
    (fixedClient 500 "upstream down" {} 200 "").ProcessVideo
        { URL := "https://x.com/v", VideoQuality := "1080", DownloadMode := "auto" } =
      .error "received non-success status code: 500, body: upstream down" ∧
    (processAndSendVideo id acceptingSession (unreachableClient "dial tcp: connection refused")
        { URL := "https://x.com/v", VideoQuality := "1080", DownloadMode := "auto" }).map
        visibleOutputs =
      some [("Error processing video: error executing request: dial tcp: connection refused",
        [])] ∧
    (processAndSendVideo id acceptingSession (fixedClient 500 "upstream down" {} 200 "")
        { URL := "https://x.com/v", VideoQuality := "1080", DownloadMode := "auto" }).map
        visibleOutputs =
      some [("Error processing video: received non-success status code: 500, body: upstream down",
        [])] ∧
    (processAndSendVideo id acceptingSession (unreachableClient "dial tcp: connection refused")
        { URL := "https://x.com/v", VideoQuality := "1080", DownloadMode := "auto" }).map
        visibleOutputs ≠
      some [("Error processing video", [])] ∧
    (processAndSendVideo id acceptingSession (unreachableClient "dial tcp: connection refused")
        { URL := "https://x.com/v", VideoQuality := "1080", DownloadMode := "auto" }).map
        visibleOutputs ≠
      (processAndSendVideo id acceptingSession (fixedClient 500 "upstream down" {} 200 "")
        { URL := "https://x.com/v", VideoQuality := "1080", DownloadMode := "auto" }).map
        visibleOutputs := by
  refine ⟨rfl, rfl, by decide, by decide, by decide, by decide⟩

/-- Claim C8, amended.  When `ProcessVideo` fails with error text `err`, the run shows the user
`Error processing video: <err>` and logs the same line; when the download of a `redirect` or
`tunnel` Result fails with error text `err`, the run shows the user
`Error downloading video: <err>` and logs the same line (the platform accepting the edit). -/
theorem editResponseWithError_text_and_log (unicodeToUpper : Char → Char) (s : Session)
    (client : Client) (options : RequestOptions) :
    (∀ err, client.ProcessVideo options = .error err →
      s.InteractionResponseEdit ("Error processing video" ++ ": " ++ err) [] = none →
      ∃ trace, processAndSendVideo unicodeToUpper s client options = some trace ∧
        visibleOutputs trace = [("Error processing video" ++ ": " ++ err, [])] ∧
        logLines trace = ["Error processing video" ++ ": " ++ err]) ∧
    (∀ result err, client.ProcessVideo options = .ok result →
      (result.Status = "redirect" ∨ result.Status = "tunnel") →
      client.DownloadFile result.URL result.Filename = some (.error err) →
      s.InteractionResponseEdit ("Error downloading video" ++ ": " ++ err) [] = none →
      ∃ trace, processAndSendVideo unicodeToUpper s client options = some trace ∧
        visibleOutputs trace = [("Error downloading video" ++ ": " ++ err, [])] ∧
        logLines trace = ["Error downloading video" ++ ": " ++ err]) := by
  constructor
  · intro err hsubmit htext
    refine ⟨[.submit options, .log ("Error processing video" ++ ": " ++ err),
      .responseEdit ("Error processing video" ++ ": " ++ err) [] none], ?_, ?_, ?_⟩
    · simp only [processAndSendVideo, hsubmit, editResponseWithError, htext]
    · simp [visibleOutputs, Event.visible]
    · simp [logLines]
  · intro result err hsubmit hstatus hfetch htext
    refine ⟨[.submit options, .fetch result.URL result.Filename,
      .log ("Error downloading video" ++ ": " ++ err),
      .responseEdit ("Error downloading video" ++ ": " ++ err) [] none], ?_, ?_, ?_⟩
    · simp only [processAndSendVideo, hsubmit, if_pos hstatus, handleDownloadableMedia, hfetch,
        editResponseWithError, htext, Option.map_some']
    · simp [visibleOutputs, Event.visible]
    · simp [logLines]

theorem editResponseWithError_text_and_log_witness :
    ∃ trace, processAndSendVideo id acceptingSession
        (fixedClient 200 "" { Status := "redirect", URL := "https://cdn.example/v.mp4" } 404 "")
        { URL := "https://x.com/v", VideoQuality := "1080", DownloadMode := "auto" } = some trace ∧
      visibleOutputs trace =
        [("Error downloading video" ++ ": "
          ++ "received non-success status code while downloading: 404", [])] ∧
      logLines trace =
        ["Error downloading video" ++ ": "
          ++ "received non-success status code while downloading: 404"] :=
  (editResponseWithError_text_and_log id acceptingSession
    (fixedClient 200 "" { Status := "redirect", URL := "https://cdn.example/v.mp4" } 404 "")
    { URL := "https://x.com/v", VideoQuality := "1080", DownloadMode := "auto" }).2
    { Status := "redirect", URL := "https://cdn.example/v.mp4" }
    "received non-success status code while downloading: 404" rfl (by decide) rfl rfl

/-- Claim C9.  For a Result whose status is none of `redirect`, `tunnel`, `picker` and `error`
(compared exactly, the empty status included), the run of `processAndSendVideo` is the submit
followed by one text edit with `Received unexpected response status: ` and the status verbatim:
it makes no download, and that text is the user-visible output when the platform accepts the
edit. -/
theorem processAndSendVideo_unexpected_status (unicodeToUpper : Char → Char) (s : Session)
    (client : Client) (options : RequestOptions) (result : CobaltResponse)
    (hsubmit : client.ProcessVideo options = .ok result)
    (h1 : result.Status ≠ "redirect") (h2 : result.Status ≠ "tunnel")
    (h3 : result.Status ≠ "picker") (h4 : result.Status ≠ "error") :
    processAndSendVideo unicodeToUpper s client options =
      some (.submit options ::
        editResponse s ("Received unexpected response status: " ++ result.Status)) ∧
    fetches (.submit options ::
        editResponse s ("Received unexpected response status: " ++ result.Status)) = [] ∧
    (s.InteractionResponseEdit ("Received unexpected response status: " ++ result.Status) []
        = none →
      visibleOutputs (.submit options ::
          editResponse s ("Received unexpected response status: " ++ result.Status)) =
        [("Received unexpected response status: " ++ result.Status, [])]) := by
  refine ⟨?_, ?_, ?_⟩
  · simp [processAndSendVideo, hsubmit, h1, h2, h3, h4]
  · unfold editResponse
    cases s.InteractionResponseEdit ("Received unexpected response status: " ++ result.Status) []
      <;> simp [fetches]
  · intro h
    simp [editResponse, h, visibleOutputs, Event.visible]

theorem processAndSendVideo_unexpected_status_witness :
    processAndSendVideo id acceptingSession
        (fixedClient 200 "" { Status := "weird_future_status" } 200 "")
        { URL := "https://x.com/v", VideoQuality := "1080", DownloadMode := "auto" } =
      some [.submit { URL := "https://x.com/v", VideoQuality := "1080", DownloadMode := "auto" },
        .responseEdit "Received unexpected response status: weird_future_status" [] none] :=
  (processAndSendVideo_unexpected_status id acceptingSession
    (fixedClient 200 "" { Status := "weird_future_status" } 200 "")
    { URL := "https://x.com/v", VideoQuality := "1080", DownloadMode := "auto" }
    { Status := "weird_future_status" } rfl (by decide) (by decide) (by decide) (by decide)).1

/-- Claim C10.  When the request to the API was sent and answered, a status code below 200 or
at least 300 makes `ProcessVideo` fail, with no Result, whatever the body is and whatever the JSON
decoder would read in it; when the body could be read the error is
`received non-success status code: <code>, body: <body>`.  For a status code in 200..299 the
status check does not fail: the outcome is that of decoding the body. -/
theorem ProcessVideo_status_check (c : Client) (options : RequestOptions)
    (payloadBytes : String) (resp : HttpResponse String)
    (hmarshal : c.jsonMarshal (buildPayload options) = .ok payloadBytes)
    (hreq : c.newRequestError "POST" c.baseURL = none)
    (hdo : c.doPost (c.postRequest payloadBytes) = .ok resp) :
    ((resp.StatusCode < 200 ∨ resp.StatusCode ≥ 300) →
      (∃ err, c.ProcessVideo options = .error err) ∧
      ∀ body, resp.Body = .ok body →
        c.ProcessVideo options =
          .error ("received non-success status code: " ++ fmtD resp.StatusCode ++ ", body: "
            ++ body)) ∧
    ((200 ≤ resp.StatusCode ∧ resp.StatusCode < 300) →
      ∀ body, resp.Body = .ok body →
        c.ProcessVideo options =
          match c.jsonUnmarshal body with
          | .error err => .error ("error unmarshaling response: " ++ err)
          | .ok response => .ok response) := by
  constructor
  · intro hs
    constructor
    · cases hb : resp.Body with
      | error e =>
        refine ⟨"error reading response body: " ++ e, ?_⟩
        simp only [Client.ProcessVideo, hmarshal, hreq, hdo, hb]
      | ok body =>
        refine ⟨"received non-success status code: " ++ fmtD resp.StatusCode ++ ", body: "
          ++ body, ?_⟩
        simp only [Client.ProcessVideo, hmarshal, hreq, hdo, hb, if_pos hs]
    · intro body hb
      simp only [Client.ProcessVideo, hmarshal, hreq, hdo, hb, if_pos hs]
  · intro hs body hb
    have hn : ¬ (resp.StatusCode < 200 ∨ resp.StatusCode ≥ 300) := by omega
    simp only [Client.ProcessVideo, hmarshal, hreq, hdo, hb, if_neg hn]

theorem ProcessVideo_status_check_witness :
    (fixedClient 429 "\x7b\"status\":\"tunnel\",\"url\":\"https://cdn.example/v.mp4\"\x7d"
        { Status := "tunnel", URL := "https://cdn.example/v.mp4" } 200 "").ProcessVideo
        { URL := "https://x.com/v", VideoQuality := "1080", DownloadMode := "auto" } =
      .error ("received non-success status code: " ++ "429" ++ ", body: "
        ++ "\x7b\"status\":\"tunnel\",\"url\":\"https://cdn.example/v.mp4\"\x7d") :=
  ((ProcessVideo_status_check
    (fixedClient 429 "\x7b\"status\":\"tunnel\",\"url\":\"https://cdn.example/v.mp4\"\x7d"
        { Status := "tunnel", URL := "https://cdn.example/v.mp4" } 200 "")
    { URL := "https://x.com/v", VideoQuality := "1080", DownloadMode := "auto" }
    "\x7b\x7d"
    { StatusCode := 429, HeaderGet := fun _ => "",
      Body := .ok "\x7b\"status\":\"tunnel\",\"url\":\"https://cdn.example/v.mp4\"\x7d" }
    rfl rfl rfl).1 (Or.inr (by decide))).2 _ rfl

/-- Claim C11.  The filename resolution of `DownloadFile` always returns a filename, and never
the empty string, for every `filename` argument, `Content-Disposition` header value and URL; so
the filename of every successful `DownloadFile` is not empty.  The empty URL resolves to `.`, a
URL ending in `/` to its last non-empty element, and a header whose filename value is empty or
only quote characters falls through to the URL. -/
theorem DownloadFile_filename_ne_empty :
    (∀ contentDisposition url filename : String,
      ∃ name, resolveFilename contentDisposition url filename = some name ∧ name ≠ "") ∧
    (∀ (c : Client) (url filename : String) (body : Bytes) (name : String),
      c.DownloadFile url filename = some (.ok (body, name)) → name ≠ "") ∧
    resolveFilename "" "" "" = some "." ∧
    resolveFilename "" "https://cdn.example/media/" "" = some "media" ∧
    resolveFilename "attachment; filename=" "https://cdn.example/v.mp4" "" = some "v.mp4" ∧
    resolveFilename "attachment; filename=\"'\"; size=3" "https://cdn.example/" "" =
      some "cdn.example" := by
  refine ⟨?_, ?_, by decide, by decide, by decide, by decide⟩
  · intro contentDisposition url filename
    cases h : resolveFilename contentDisposition url filename with
    | none => rw [resolveFilename_eq] at h; exact absurd h (by simp)
    | some name => exact ⟨name, rfl, resolveFilename_ne_empty _ _ _ _ h⟩
  · intro c url filename body name h
    unfold Client.DownloadFile at h
    cases hr : c.newRequestError "GET" url with
    | some err => simp [hr] at h
    | none =>
      cases hg : c.doGet url with
      | error err => simp [hr, hg] at h
      | ok resp =>
        by_cases hs : resp.StatusCode < 200 ∨ resp.StatusCode ≥ 300
        · simp [hr, hg, hs] at h
        · cases hb : resp.Body with
          | error err => simp [hr, hg, hs, hb] at h
          | ok b =>
            cases hn : resolveFilename (resp.HeaderGet "Content-Disposition") url filename with
            | none => simp [hr, hg, hs, hb, hn] at h
            | some n =>
              simp only [hr, hg, if_neg hs, hb, hn, Option.some.injEq, Except.ok.injEq,
                Prod.mk.injEq] at h
              rw [← h.2]
              exact resolveFilename_ne_empty _ _ _ _ hn

theorem DownloadFile_filename_ne_empty_witness :
    (fixedClient 200 "" {} 200 "attachment; filename=\"\"").DownloadFile
        "https://cdn.example/media/" "" = some (.ok ([1, 2, 3], "media")) ∧
    "media" ≠ "" :=
  ⟨rfl, DownloadFile_filename_ne_empty.2.1
    (fixedClient 200 "" {} 200 "attachment; filename=\"\"")
    "https://cdn.example/media/" "" [1, 2, 3] "media" rfl⟩

end Cobalt
